import Mathlib

/-!
Verification of the watermark-driven data synchronizer
(`app/tasks/events.py`, `app/tasks/reservations.py`, `app/models.py`).

The Python code is shallowly embedded: `datetime.date` values become the
`Date` structure, `datetime.datetime` values become `DateTime` (a calendar
date plus the microsecond-of-day), the Django ORM tables `EventLog` and
`ReservationLog` become append-only Lean lists of rows, and the two HTTP
sinks become boolean oracles `upsert : payload → Bool` (`false` models a
raised `requests.HTTPError`).  Machine integers from the source
(`int64` ids and status codes) are modelled as `Int`.
-/

/-- Python `datetime.date`: a Gregorian calendar date. -/
structure Date where
  year : Nat
  month : Nat
  day : Nat
deriving DecidableEq

/-- Python `datetime.datetime`: a calendar date plus the microsecond of the day
(Python's `hour`/`minute`/`second`/`microsecond` flattened; `datetime.min.time()`
is microsecond 0 and `datetime.max.time()` is microsecond 86399999999). -/
structure DateTime where
  date : Date
  micro : Nat
deriving DecidableEq

/-- Chronological (lexicographic) strict order on calendar dates, the order
Python's `datetime.date` comparison and the Django `order_by('-event_date')`
use. -/
def Date.lt (a b : Date) : Prop :=
  a.year < b.year ∨ (a.year = b.year ∧
    (a.month < b.month ∨ (a.month = b.month ∧ a.day < b.day)))

instance (a b : Date) : Decidable (Date.lt a b) := by
  unfold Date.lt; infer_instance

/-- Non-strict chronological order on calendar dates. -/
def Date.le (a b : Date) : Prop := Date.lt a b ∨ a = b

instance (a b : Date) : Decidable (Date.le a b) := by
  unfold Date.le; infer_instance

/-- Chronological order on datetimes: by date, then by time of day. -/
def DateTime.lt (a b : DateTime) : Prop :=
  Date.lt a.date b.date ∨ (a.date = b.date ∧ a.micro < b.micro)

instance (a b : DateTime) : Decidable (DateTime.lt a b) := by
  unfold DateTime.lt; infer_instance

/-- Non-strict chronological order on datetimes. -/
def DateTime.le (a b : DateTime) : Prop := DateTime.lt a b ∨ a = b

instance (a b : DateTime) : Decidable (DateTime.le a b) := by
  unfold DateTime.le; infer_instance

theorem Date.lt_irrefl (a : Date) : ¬ Date.lt a a := by
  obtain ⟨y, m, d⟩ := a
  simp only [Date.lt]
  omega

theorem Date.lt_trans {a b c : Date}
    (h1 : Date.lt a b) (h2 : Date.lt b c) : Date.lt a c := by
  obtain ⟨y1, m1, d1⟩ := a; obtain ⟨y2, m2, d2⟩ := b; obtain ⟨y3, m3, d3⟩ := c
  simp only [Date.lt] at *
  omega

theorem Date.le_trans {a b c : Date}
    (h1 : Date.le a b) (h2 : Date.le b c) : Date.le a c := by
  obtain ⟨y1, m1, d1⟩ := a; obtain ⟨y2, m2, d2⟩ := b; obtain ⟨y3, m3, d3⟩ := c
  simp only [Date.le, Date.lt, Date.mk.injEq] at *
  omega

theorem Date.le_total (a b : Date) : Date.le a b ∨ Date.le b a := by
  obtain ⟨y1, m1, d1⟩ := a; obtain ⟨y2, m2, d2⟩ := b
  simp only [Date.le, Date.lt, Date.mk.injEq]
  omega

theorem Date.not_le_of_lt {a b : Date} (h : Date.lt a b) : ¬ Date.le b a := by
  obtain ⟨y1, m1, d1⟩ := a; obtain ⟨y2, m2, d2⟩ := b
  simp only [Date.le, Date.lt, Date.mk.injEq] at *
  omega

theorem Date.ne_of_lt {a b : Date} (h : Date.lt a b) : a ≠ b := by
  obtain ⟨y1, m1, d1⟩ := a; obtain ⟨y2, m2, d2⟩ := b
  simp only [Date.lt, ne_eq, Date.mk.injEq] at *
  omega

theorem DateTime.dt_lt_irrefl (a : DateTime) : ¬ DateTime.lt a a := by
  obtain ⟨⟨y, m, d⟩, u⟩ := a
  simp only [DateTime.lt, Date.lt]
  omega

theorem DateTime.dt_le_trans {a b c : DateTime}
    (h1 : DateTime.le a b) (h2 : DateTime.le b c) : DateTime.le a c := by
  obtain ⟨⟨y1, m1, d1⟩, u1⟩ := a; obtain ⟨⟨y2, m2, d2⟩, u2⟩ := b
  obtain ⟨⟨y3, m3, d3⟩, u3⟩ := c
  simp only [DateTime.le, DateTime.lt, Date.lt, DateTime.mk.injEq,
    Date.mk.injEq] at *
  omega

theorem DateTime.dt_le_total (a b : DateTime) : DateTime.le a b ∨ DateTime.le b a := by
  obtain ⟨⟨y1, m1, d1⟩, u1⟩ := a; obtain ⟨⟨y2, m2, d2⟩, u2⟩ := b
  simp only [DateTime.le, DateTime.lt, Date.lt, DateTime.mk.injEq, Date.mk.injEq]
  omega

theorem DateTime.dt_not_le_of_lt {a b : DateTime}
    (h : DateTime.lt a b) : ¬ DateTime.le b a := by
  obtain ⟨⟨y1, m1, d1⟩, u1⟩ := a; obtain ⟨⟨y2, m2, d2⟩, u2⟩ := b
  simp only [DateTime.le, DateTime.lt, Date.lt, DateTime.mk.injEq,
    Date.mk.injEq] at *
  omega

/-- Gregorian leap-year test (the rule `calendar.isleap` and `dateutil` use). -/
def isLeapYear (y : Nat) : Bool :=
  (decide (y % 4 = 0) && decide (y % 100 ≠ 0)) || decide (y % 400 = 0)

/-- Number of days in a Gregorian month, as used by
`dateutil.relativedelta` when clamping `day=31` to the month's length. -/
def daysInMonth (y m : Nat) : Nat :=
  if m = 2 then (if isLeapYear y then 29 else 28)
  else if m = 4 ∨ m = 6 ∨ m = 9 ∨ m = 11 then 30
  else 31

theorem daysInMonth_le_31 (y m : Nat) : daysInMonth y m ≤ 31 := by
  unfold daysInMonth
  split
  · split <;> omega
  · split <;> omega

theorem daysInMonth_pos (y m : Nat) : 1 ≤ daysInMonth y m := by
  unfold daysInMonth
  split
  · split <;> omega
  · split <;> omega

/-- The calendar date one day later: what Python's
`date + timedelta(days=1)` computes on a valid date. -/
def Date.next (d : Date) : Date :=
  if d.day < daysInMonth d.year d.month then ⟨d.year, d.month, d.day + 1⟩
  else if d.month < 12 then ⟨d.year, d.month + 1, 1⟩
  else ⟨d.year + 1, 1, 1⟩

theorem Date.lt_next (d : Date) : Date.lt d d.next := by
  obtain ⟨y, m, dd⟩ := d
  simp only [Date.next]
  split
  · simp [Date.lt]
  · split <;> simp [Date.lt]

/-- A structurally valid Python date: months 1–12, days within the month. -/
def Date.Valid (d : Date) : Prop :=
  1 ≤ d.month ∧ d.month ≤ 12 ∧ 1 ≤ d.day ∧ d.day ≤ daysInMonth d.year d.month

instance (d : Date) : Decidable d.Valid := by
  unfold Date.Valid; infer_instance

/-- A structurally valid Python datetime: valid date, time of day below
24 hours. -/
def DateTime.Valid (t : DateTime) : Prop :=
  t.date.Valid ∧ t.micro ≤ 86399999999

instance (t : DateTime) : Decidable t.Valid := by
  unfold DateTime.Valid; infer_instance

/-- Greatest element of a list, used to model Django's
`filter(...).order_by('-field').first()`: the greatest element of the list
under `le` (`none` on the empty list). -/
def maxBy? {α : Type} (le : α → α → Prop) [DecidableRel le] : List α → Option α
  | [] => none
  | a :: l =>
    match maxBy? le l with
    | none => some a
    | some m => some (if le m a then a else m)

theorem maxBy?_append_big {α : Type} (le : α → α → Prop) [DecidableRel le]
    (htrans : ∀ {x y z : α}, le x y → le y z → le x z)
    (htot : ∀ x y : α, le x y ∨ le y x)
    (l : List α) (d : α)
    (h : ∀ m, maxBy? le l = some m → ¬ le d m) :
    maxBy? le (l ++ [d]) = some d := by
  induction l with
  | nil => simp [maxBy?]
  | cons a l ih =>
    by_cases hda : le d a
    · exfalso
      rcases hm : maxBy? le l with _ | m
      · exact h a (by simp [maxBy?, hm]) hda
      · by_cases hma : le m a
        · exact h a (by simp [maxBy?, hm, hma]) hda
        · exact h m (by simp [maxBy?, hm, hma]) (htrans hda ((htot a m).resolve_right hma))
    · have hrec : maxBy? le (l ++ [d]) = some d := by
        apply ih
        intro m hm hdm
        rcases hm' : maxBy? le l with _ | m'
        · rw [hm'] at hm; exact Option.noConfusion hm
        · rw [hm'] at hm
          injection hm with hm
          subst hm
          by_cases hma : le m' a
          · exact hda (htrans hdm hma)
          · exact h m' (by simp [maxBy?, hm', hma]) hdm
      rw [List.cons_append]
      simp [maxBy?, hrec, hda]

/-- Supported reservation period granularities
(`ReservationLog.PERIOD_DAILY/MONTHLY/YEARLY` in `app/models.py`). -/
inductive PeriodType where
  | day
  | month
  | year
deriving DecidableEq

/-- One row of the append-only `EventLog` table (`app/models.py`): a
synchronization attempt for one event date (`created_at` is never read by
the synchronizer and is omitted). -/
structure EventLog where
  event_date : Date
  is_success : Bool
deriving DecidableEq

/-- One row of the append-only `ReservationLog` table (`app/models.py`). -/
structure ReservationLog where
  last_sync_at : DateTime
  period_type : PeriodType
  period_start : DateTime
  period_end : DateTime
  is_success : Bool
deriving DecidableEq

/-- One row of the sorted events dataframe produced by `_load_events`. -/
structure EventRecord where
  id : Int
  hotel_id : Int
  room_reservation_id : String
  event_timestamp : DateTime
  night_of_stay : Date
  status : Int
deriving DecidableEq

/-- Derived `event_date` column: the calendar date of `event_timestamp`
(`df_events_sorted['event_timestamp'].dt.date` in `_load_events`). -/
def EventRecord.event_date (r : EventRecord) : Date := r.event_timestamp.date

/-- The dictionary built for each event by
`_events_dataframe_to_payload_data`. -/
structure EventPayload where
  id : Int
  hotel_id : Int
  room_id : String
  timestamp : String
  rpg_status : Int
  night_of_stay : String
deriving DecidableEq

/-- Failure modes of the event pipeline: `IndexError` from
`event_dates[0]` / `[0][0]`, the `ValueError('Last synchronized date is not
found in the predefined data.')` watermark failure, and a raised
`requests.HTTPError` from an upsert call. -/
inductive SyncError where
  | indexError
  | watermarkNotFound
  | upsertFailed
deriving DecidableEq

/-- Distinct elements of a list in order of first appearance: the behaviour
of `pandas.Series.unique()` and of key insertion into a Python dict. -/
def firstSeen {α : Type} [DecidableEq α] (l : List α) : List α :=
  l.foldl (fun acc a => if a ∈ acc then acc else acc ++ [a]) []

/-- The most recent successfully synchronized event date:
`EventLog.objects.filter(is_success=True).order_by('-event_date').first()`
in `_get_next_date_to_sync`. -/
def eventLastSync (store : List EventLog) : Option Date :=
  maxBy? Date.le
    ((store.filter (fun row => row.is_success)).map (fun row => row.event_date))

/-- The event unit resolver `_get_next_date_to_sync`
(`app/tasks/events.py` lines 45–68).  `event_dates` is the column
`df_events['event_date'].unique()`, hoisted to a parameter.  The
`np.where(event_dates == last_sync.event_date)[0][0]` lookup is the
first index at which the date occurs; when absent, the `IndexError` is
turned into the `ValueError` modelled by `.watermarkNotFound`. -/
def _get_next_date_to_sync (event_dates : List Date) (store : List EventLog) :
    Except SyncError (Option Date) :=
  match eventLastSync store with
  | none =>
    match event_dates with
    | [] => .error .indexError
    | d :: _ => .ok (some d)
  | some last =>
    if event_dates.indexOf last < event_dates.length then
      if event_dates.indexOf last < event_dates.length - 1 then
        match event_dates.get? (event_dates.indexOf last + 1) with
        | some d => .ok (some d)
        | none => .error .indexError
      else .ok none
    else .error .watermarkNotFound

/-- Zero-pad the decimal representation of a natural number to `w` digits
(the padding `strftime` applies to each numeric field). -/
def padNum (w n : Nat) : String :=
  let s := toString n
  String.mk (List.replicate (w - s.length) '0') ++ s

def DateTime.hour (t : DateTime) : Nat := t.micro / 3600000000

def DateTime.minute (t : DateTime) : Nat := t.micro / 60000000 % 60

def DateTime.second (t : DateTime) : Nat := t.micro / 1000000 % 60

def DateTime.microsecond (t : DateTime) : Nat := t.micro % 1000000

/-- Python `dt.strftime('%Y-%m-%dT%H:%M:%S.%fZ')`. -/
def DateTime.strftimeIsoZ (t : DateTime) : String :=
  padNum 4 t.date.year ++ "-" ++ padNum 2 t.date.month ++ "-" ++
    padNum 2 t.date.day ++ "T" ++ padNum 2 t.hour ++ ":" ++ padNum 2 t.minute ++
    ":" ++ padNum 2 t.second ++ "." ++ padNum 6 t.microsecond ++ "Z"

/-- Python `d.strftime('%Y-%m-%d')`. -/
def Date.strftimeYmd (d : Date) : String :=
  padNum 4 d.year ++ "-" ++ padNum 2 d.month ++ "-" ++ padNum 2 d.day

/-- The event transformer `_events_dataframe_to_payload_data`
(`app/tasks/events.py` lines 71–87): the accumulation loop over the rows of
the filtered dataframe. -/
def _events_dataframe_to_payload_data (events_to_be_sync : List EventRecord) :
    List EventPayload :=
  events_to_be_sync.foldl
    (fun payload_data event =>
      payload_data ++ [{
        id := event.id
        hotel_id := event.hotel_id
        room_id := event.room_reservation_id
        timestamp := event.event_timestamp.strftimeIsoZ
        rpg_status := event.status
        night_of_stay := event.night_of_stay.strftimeYmd }])
    []

/-- Sequential per-record upsert loop (`for payload in payload_data:
api.upsert(payload)`): returns the records sent successfully and whether
the whole loop completed; a `false` from the oracle models a raised
`requests.HTTPError`, which stops the loop at once. -/
def upsertSeq {α : Type} (upsert : α → Bool) : List α → List α × Bool
  | [] => ([], true)
  | p :: ps =>
    if upsert p then
      let r := upsertSeq upsert ps
      (p :: r.1, r.2)
    else ([], false)

/-- Observable result of one `synchronize_events` invocation: the final
state of the `EventLog` table and the payloads sent downstream.  `err`
models an uncaught Python exception. -/
inductive EventSyncOutcome where
  | noWork (store : List EventLog)
  | ok (store : List EventLog) (sent : List EventPayload)
  | err (e : SyncError) (store : List EventLog) (sent : List EventPayload)
deriving DecidableEq

/-- The event sync orchestrator `synchronize_events`
(`app/tasks/events.py` lines 90–119), with the CSV snapshot `df_events`
and the downstream sink passed as parameters. -/
def synchronize_events (df_events : List EventRecord) (store : List EventLog)
    (upsert : EventPayload → Bool) : EventSyncOutcome :=
  let event_dates := firstSeen (df_events.map (fun r => r.event_date))
  match _get_next_date_to_sync event_dates store with
  | .error e => .err e store []
  | .ok none => .noWork store
  | .ok (some d) =>
    let events_to_be_sync := df_events.filter (fun r => decide (r.event_date = d))
    let payload_data := _events_dataframe_to_payload_data events_to_be_sync
    let r := upsertSeq upsert payload_data
    if r.2 then .ok (store ++ [{ event_date := d, is_success := true }]) r.1
    else .err .upsertFailed store r.1

/-- The most recent successful reservation watermark for one granularity:
`ReservationLog.objects.filter(period_type=period_type,
is_success=True).order_by('-last_sync_at').first()` in
`_get_timestamp_to_sync`. -/
def reservationLastSync (period_type : PeriodType) (store : List ReservationLog) :
    Option DateTime :=
  maxBy? DateTime.le
    ((store.filter (fun row => decide (row.period_type = period_type) && row.is_success)).map
      (fun row => row.last_sync_at))

/-- Python `datetime.min.time()` as a microsecond of the day. -/
def datetimeMinMicro : Nat := 0

/-- Python `datetime.max.time()` (23:59:59.999999) as a microsecond of the day. -/
def datetimeMaxMicro : Nat := 86399999999

/-- Python `d + relativedelta(day=31)` on the date part: replace the day
with 31 clamped to the length of the month. -/
def relativedeltaDay31 (d : Date) : Date :=
  ⟨d.year, d.month, min 31 (daysInMonth d.year d.month)⟩

/-- The period calculator branch `_day_period_of`
(`app/tasks/reservations.py` lines 15–22). -/
def _day_period_of (date : DateTime) : DateTime × DateTime :=
  (⟨date.date, datetimeMinMicro⟩, ⟨date.date, datetimeMaxMicro⟩)

/-- The period calculator branch `_month_period_of`
(`app/tasks/reservations.py` lines 25–37). -/
def _month_period_of (date : DateTime) : DateTime × DateTime :=
  let start : DateTime := ⟨⟨date.date.year, date.date.month, 1⟩, datetimeMinMicro⟩
  let endDate := relativedeltaDay31 start.date
  (start, ⟨endDate, datetimeMaxMicro⟩)

/-- The period calculator branch `_year_period_of`
(`app/tasks/reservations.py` lines 40–52): `start.replace(month=12)` then
`+ relativedelta(day=31)`. -/
def _year_period_of (date : DateTime) : DateTime × DateTime :=
  let start : DateTime := ⟨⟨date.date.year, 1, 1⟩, datetimeMinMicro⟩
  let endDate := relativedeltaDay31 ⟨start.date.year, 12, start.date.day⟩
  (start, ⟨endDate, datetimeMaxMicro⟩)

/-- The reservation unit resolver `_get_timestamp_to_sync`
(`app/tasks/reservations.py` lines 55–68): the epoch anchor is
`parse('2022-01-29T00:00:00.0Z')`; otherwise
`datetime.combine(last_sync.last_sync_at, datetime.min.time()) +
timedelta(days=1)` (adding one day to a midnight datetime is the calendar
successor of its date). -/
def _get_timestamp_to_sync (period_type : PeriodType) (store : List ReservationLog) :
    DateTime :=
  match reservationLastSync period_type store with
  | none => ⟨⟨2022, 1, 29⟩, 0⟩
  | some last =>
    let anchor_timestamp : DateTime := ⟨last.date, datetimeMinMicro⟩
    ⟨anchor_timestamp.date.next, anchor_timestamp.micro⟩

/-- The dispatcher `_get_period_from` (`app/tasks/reservations.py` lines
71–84); the `ValueError` branch for an unsupported period type is
unrepresentable because `PeriodType` enumerates the three supported ones. -/
def _get_period_from (timestamp : DateTime) (type : PeriodType) : DateTime × DateTime :=
  match type with
  | .day => _day_period_of timestamp
  | .month => _month_period_of timestamp
  | .year => _year_period_of timestamp

/-- One event dictionary returned by the upstream provider's `list` call in
`_count_events_on`; only `hotel_id` is read by the aggregator. -/
structure ProviderEvent where
  hotel_id : Int
deriving DecidableEq

/-- One aggregate dictionary built by `_count_events_on`. -/
structure ReservationCounter where
  hotel_id : Int
  total : Nat
  period_type : PeriodType
  period_start : String
  period_end : String
deriving DecidableEq

/-- One step of the `events_map` grouping loop in `_count_events_on`:
`events_map[hotel_id] = events_map.get(hotel_id, []) + [event]`.  A Python
dict keeps an updated key at its position and appends a new key at the
end. -/
def insertEvent (events_map : List (Int × List ProviderEvent)) (event : ProviderEvent) :
    List (Int × List ProviderEvent) :=
  if events_map.any (fun p => decide (p.1 = event.hotel_id)) then
    events_map.map (fun p => if p.1 = event.hotel_id then (p.1, p.2 ++ [event]) else p)
  else events_map ++ [(event.hotel_id, [event])]

/-- The reservation aggregator `_count_events_on`
(`app/tasks/reservations.py` lines 87–127), with the provider's response
(the events with `updated` in the period and `rpg_status == 1`) passed as
the parameter `events`. -/
def _count_events_on (timestamp : DateTime) (period_type : PeriodType)
    (events : List ProviderEvent) : List ReservationCounter :=
  let period := _get_period_from timestamp period_type
  let events_map := events.foldl insertEvent []
  events_map.map (fun p =>
    { hotel_id := p.1
      total := p.2.length
      period_type := period_type
      period_start := period.1.strftimeIsoZ
      period_end := period.2.strftimeIsoZ })

/-- Observable result of one `_synchronize` invocation: the final state of
the `ReservationLog` table and the aggregates sent downstream. -/
inductive ReservationSyncOutcome where
  | ok (store : List ReservationLog) (sent : List ReservationCounter)
  | err (e : SyncError) (store : List ReservationLog) (sent : List ReservationCounter)
deriving DecidableEq

/-- The reservation sync orchestrator `_synchronize`
(`app/tasks/reservations.py` lines 130–151), shared by the daily, monthly
and yearly tasks. -/
def _synchronize (period_type : PeriodType) (store : List ReservationLog)
    (events : List ProviderEvent) (upsert : ReservationCounter → Bool) :
    ReservationSyncOutcome :=
  let timestamp := _get_timestamp_to_sync period_type store
  let event_counters := _count_events_on timestamp period_type events
  let r := upsertSeq upsert event_counters
  if r.2 then
    let period := _get_period_from timestamp period_type
    .ok (store ++ [{
      last_sync_at := timestamp
      period_type := period_type
      period_start := period.1
      period_end := period.2
      is_success := true }]) r.1
  else .err .upsertFailed store r.1

/-- Repeatedly call the event unit resolver, appending a successful
watermark row for each returned date (spec §8, "Monotonicity"). -/
def syncDates (event_dates : List Date) : Nat → List EventLog → List Date
  | 0, _ => []
  | n + 1, store =>
    match _get_next_date_to_sync event_dates store with
    | .ok (some d) =>
      d :: syncDates event_dates n (store ++ [{ event_date := d, is_success := true }])
    | _ => []

/-- Modelled from the spec (§4.1): the month-length table, "correct
last-day computation per month length, including leap years", stated
independently of the code's branch structure. -/
def daysInMonthSpec (y m : Nat) : Nat :=
  [31, if (y % 4 = 0 ∧ y % 100 ≠ 0) ∨ y % 400 = 0 then 29 else 28,
   31, 30, 31, 30, 31, 31, 30, 31, 30, 31].getD (m - 1) 0

/-- Modelled from the spec (§4.4): the payload of one event record written
per the spec's field list, with the timestamp as fixed-precision UTC
ISO-8601 with microseconds and a literal Z suffix and the night of stay as
YYYY-MM-DD. -/
def toPayloadSpec (e : EventRecord) : EventPayload :=
  { id := e.id
    hotel_id := e.hotel_id
    room_id := e.room_reservation_id
    timestamp :=
      padNum 4 e.event_timestamp.date.year ++ "-" ++
        padNum 2 e.event_timestamp.date.month ++ "-" ++
        padNum 2 e.event_timestamp.date.day ++ "T" ++
        padNum 2 e.event_timestamp.hour ++ ":" ++
        padNum 2 e.event_timestamp.minute ++ ":" ++
        padNum 2 e.event_timestamp.second ++ "." ++
        padNum 6 e.event_timestamp.microsecond ++ "Z"
    rpg_status := e.status
    night_of_stay :=
      padNum 4 e.night_of_stay.year ++ "-" ++ padNum 2 e.night_of_stay.month ++
        "-" ++ padNum 2 e.night_of_stay.day }

theorem pairwise_lt_nodup {ds : List Date} (hs : List.Pairwise Date.lt ds) :
    ds.Nodup :=
  hs.imp (fun hab => Date.ne_of_lt hab)

theorem getNext_of_no_watermark {event_dates : List Date} {store : List EventLog}
    (h : eventLastSync store = none) (hne : event_dates ≠ []) :
    _get_next_date_to_sync event_dates store = .ok (some (event_dates.head hne)) := by
  simp only [_get_next_date_to_sync, h]
  cases event_dates with
  | nil => exact absurd rfl hne
  | cons d l => rfl

theorem getNext_of_last_elem {event_dates : List Date} {store : List EventLog}
    (hs : List.Pairwise Date.lt event_dates) (hne : event_dates ≠ [])
    (h : eventLastSync store = some (event_dates.getLast hne)) :
    _get_next_date_to_sync event_dates store = .ok none := by
  have hnd : event_dates.Nodup := pairwise_lt_nodup hs
  have hlen : 0 < event_dates.length := List.length_pos.mpr hne
  simp only [_get_next_date_to_sync, h]
  rw [List.getLast_eq_getElem]
  rw [List.indexOf_getElem hnd (event_dates.length - 1) (by omega)]
  rw [if_pos (by omega), if_neg (by omega)]

theorem getNext_of_mid {event_dates : List Date} {store : List EventLog}
    (hs : List.Pairwise Date.lt event_dates) (i : Nat) (hi : i + 1 < event_dates.length)
    (h : eventLastSync store = some (event_dates.get ⟨i, by omega⟩)) :
    _get_next_date_to_sync event_dates store =
      .ok (some (event_dates.get ⟨i + 1, hi⟩)) := by
  have hnd : event_dates.Nodup := pairwise_lt_nodup hs
  simp only [_get_next_date_to_sync, h, List.get_eq_getElem]
  rw [List.indexOf_getElem hnd i (by omega)]
  rw [if_pos (by omega), if_pos (by omega)]
  rw [List.get?_eq_get hi]
  rfl

theorem getNext_absent {event_dates : List Date} {store : List EventLog} {d : Date}
    (h : eventLastSync store = some d) (hd : d ∉ event_dates) :
    _get_next_date_to_sync event_dates store = .error .watermarkNotFound := by
  simp only [_get_next_date_to_sync, h]
  rw [if_neg (fun hlt => hd (List.indexOf_lt_length.mp hlt))]

theorem c1_event_unit_resolver (event_dates : List Date) (store : List EventLog)
    (hne : event_dates ≠ []) (hs : List.Pairwise Date.lt event_dates) :
    (eventLastSync store = none →
      _get_next_date_to_sync event_dates store =
        .ok (some (event_dates.head hne))) ∧
    (eventLastSync store = some (event_dates.getLast hne) →
      _get_next_date_to_sync event_dates store = .ok none) ∧
    (∀ (i : Nat) (hi : i + 1 < event_dates.length),
      eventLastSync store = some (event_dates.get ⟨i, by omega⟩) →
      _get_next_date_to_sync event_dates store =
        .ok (some (event_dates.get ⟨i + 1, hi⟩))) := by
  refine ⟨?_, ?_, ?_⟩
  · intro h
    exact getNext_of_no_watermark h hne
  · intro h
    exact getNext_of_last_elem hs hne h
  · intro i hi h
    exact getNext_of_mid hs i hi h

theorem c1_event_unit_resolver_witness :
    _get_next_date_to_sync [⟨2024, 6, 11⟩, ⟨2024, 6, 12⟩, ⟨2024, 6, 13⟩] [] =
      .ok (some ⟨2024, 6, 11⟩) ∧
    _get_next_date_to_sync [⟨2024, 6, 11⟩, ⟨2024, 6, 12⟩, ⟨2024, 6, 13⟩]
      [⟨⟨2024, 6, 13⟩, true⟩] = .ok none ∧
    _get_next_date_to_sync [⟨2024, 6, 11⟩, ⟨2024, 6, 12⟩, ⟨2024, 6, 13⟩]
      [⟨⟨2024, 6, 11⟩, true⟩] = .ok (some ⟨2024, 6, 12⟩) := by
  refine ⟨?_, ?_, ?_⟩
  · exact (c1_event_unit_resolver _ [] (by decide) (by decide)).1 rfl
  · exact (c1_event_unit_resolver _ _ (by decide) (by decide)).2.1 rfl
  · exact (c1_event_unit_resolver _ _ (by decide) (by decide)).2.2 0 (by decide) rfl

/-- C7: the event unit resolver fails with the `WatermarkNotFound` error
(`ValueError` in the source) exactly when a most recent successful
watermark exists and its date is absent from the sorted distinct date
list. -/
theorem c7_watermark_not_found_iff (event_dates : List Date) (store : List EventLog)
    (hs : List.Pairwise Date.lt event_dates) :
    (_get_next_date_to_sync event_dates store = .error .watermarkNotFound ↔
      ∃ d, eventLastSync store = some d ∧ d ∉ event_dates) := by
  constructor
  · intro herr
    rcases h : eventLastSync store with _ | d
    · exfalso
      simp only [_get_next_date_to_sync, h] at herr
      cases event_dates with
      | nil =>
        injection herr with herr
        exact SyncError.noConfusion herr
      | cons a l => exact Except.noConfusion herr
    · by_cases hd : d ∈ event_dates
      · exfalso
        simp only [_get_next_date_to_sync, h] at herr
        rw [if_pos (List.indexOf_lt_length.mpr hd)] at herr
        split at herr
        · split at herr
          · exact Except.noConfusion herr
          · injection herr with herr
            exact SyncError.noConfusion herr
        · exact Except.noConfusion herr
      · exact ⟨d, rfl, hd⟩
  · rintro ⟨d, hd, hnotin⟩
    exact getNext_absent hd hnotin

theorem c7_watermark_not_found_iff_witness :
    _get_next_date_to_sync [⟨2024, 6, 11⟩, ⟨2024, 6, 13⟩]
      [⟨⟨2024, 6, 12⟩, true⟩] = .error .watermarkNotFound := by
  exact (c7_watermark_not_found_iff [⟨2024, 6, 11⟩, ⟨2024, 6, 13⟩]
    [⟨⟨2024, 6, 12⟩, true⟩] (by decide)).mpr ⟨⟨2024, 6, 12⟩, rfl, by decide⟩

/-- C10: with no successful watermark and an empty distinct-date list, the
event unit resolver hits the unconditional `event_dates[0]` index and
fails with an out-of-bounds index error instead of returning `None` or
reporting no work. -/
theorem c10_empty_dataset_index_error (store : List EventLog)
    (h : eventLastSync store = none) :
    _get_next_date_to_sync [] store = .error .indexError := by
  unfold _get_next_date_to_sync
  rw [h]

theorem c10_empty_dataset_index_error_witness :
    _get_next_date_to_sync [] [] = .error .indexError :=
  c10_empty_dataset_index_error [] rfl

/-- C2: in both orchestrators every aborting invocation — in particular any
per-record upsert failure — leaves the watermark store exactly as it was:
no row is appended on any abort path. -/
theorem c2_abort_preserves_watermark_store :
    (∀ (df_events : List EventRecord) (store : List EventLog)
        (upsert : EventPayload → Bool) (e : SyncError) (s : List EventLog)
        (sent : List EventPayload),
      synchronize_events df_events store upsert = .err e s sent → s = store) ∧
    (∀ (period_type : PeriodType) (store : List ReservationLog)
        (events : List ProviderEvent) (upsert : ReservationCounter → Bool)
        (e : SyncError) (s : List ReservationLog) (sent : List ReservationCounter),
      _synchronize period_type store events upsert = .err e s sent → s = store) := by
  constructor
  · intro df store upsert e s sent h
    simp only [synchronize_events] at h
    split at h
    · injection h with h1 h2 h3
      exact h2.symm
    · exact EventSyncOutcome.noConfusion h
    · split at h
      · exact EventSyncOutcome.noConfusion h
      · injection h with h1 h2 h3
        exact h2.symm
  · intro period_type store events upsert e s sent h
    simp only [_synchronize] at h
    split at h
    · exact ReservationSyncOutcome.noConfusion h
    · injection h with h1 h2 h3
      exact h2.symm

theorem c2_abort_preserves_watermark_store_witness :
    synchronize_events [⟨1, 7, "a", ⟨⟨2024, 6, 11⟩, 0⟩, ⟨2024, 6, 12⟩, 1⟩]
        [⟨⟨2024, 5, 1⟩, false⟩] (fun _ => false) =
      .err .upsertFailed [⟨⟨2024, 5, 1⟩, false⟩] [] ∧
    _synchronize .day [] [⟨7⟩] (fun _ => false) = .err .upsertFailed [] [] ∧
    ([⟨⟨2024, 5, 1⟩, false⟩] : List EventLog) = [⟨⟨2024, 5, 1⟩, false⟩] ∧
    ([] : List ReservationLog) = [] := by
  refine ⟨by decide, by decide, ?_, ?_⟩
  · exact c2_abort_preserves_watermark_store.1
      [⟨1, 7, "a", ⟨⟨2024, 6, 11⟩, 0⟩, ⟨2024, 6, 12⟩, 1⟩]
      [⟨⟨2024, 5, 1⟩, false⟩] (fun _ => false) .upsertFailed _ [] (by decide)
  · exact c2_abort_preserves_watermark_store.2
      .day [] [⟨7⟩] (fun _ => false) .upsertFailed _ [] (by decide)

theorem isLeapYear_iff (y : Nat) :
    isLeapYear y = true ↔ ((y % 4 = 0 ∧ y % 100 ≠ 0) ∨ y % 400 = 0) := by
  simp [isLeapYear, Bool.or_eq_true, Bool.and_eq_true, decide_eq_true_eq]

theorem daysInMonth_eq_spec (y m : Nat) (h1 : 1 ≤ m) (h2 : m ≤ 12) :
    min 31 (daysInMonth y m) = daysInMonthSpec y m := by
  interval_cases m
  · rfl
  · have hcode : daysInMonth y 2 = if isLeapYear y then 29 else 28 := rfl
    have hspec : daysInMonthSpec y 2 =
        if ((y % 4 = 0 ∧ y % 100 ≠ 0) ∨ y % 400 = 0) then 29 else 28 := rfl
    rw [hcode, hspec]
    by_cases hl : isLeapYear y = true
    · rw [if_pos hl, if_pos ((isLeapYear_iff y).mp hl)]
      decide
    · rw [if_neg hl, if_neg (fun hc => hl ((isLeapYear_iff y).mpr hc))]
      decide
  · rfl
  · rfl
  · rfl
  · rfl
  · rfl
  · rfl
  · rfl
  · rfl
  · rfl
  · rfl

/-- C4: for every valid timestamp the period calculator returns, per
granularity: the timestamp's calendar date from 00:00:00.000000 to
23:59:59.999999 (day); the first through the last day of the timestamp's
month, the last day correct per month length including leap years (month);
January 1 through December 31 of the timestamp's year (year). -/
theorem c4_period_calculator (t : DateTime) (ht : t.Valid) :
    _day_period_of t = (⟨t.date, 0⟩, ⟨t.date, 86399999999⟩) ∧
    _month_period_of t =
      (⟨⟨t.date.year, t.date.month, 1⟩, 0⟩,
       ⟨⟨t.date.year, t.date.month, daysInMonthSpec t.date.year t.date.month⟩,
        86399999999⟩) ∧
    _year_period_of t =
      (⟨⟨t.date.year, 1, 1⟩, 0⟩, ⟨⟨t.date.year, 12, 31⟩, 86399999999⟩) := by
  obtain ⟨hv, -⟩ := ht
  refine ⟨rfl, ?_, rfl⟩
  simp only [_month_period_of, relativedeltaDay31, datetimeMinMicro, datetimeMaxMicro]
  rw [daysInMonth_eq_spec t.date.year t.date.month hv.1 hv.2.1]

theorem c4_period_calculator_witness :
    _month_period_of ⟨⟨2024, 2, 10⟩, 3600000000⟩ =
      (⟨⟨2024, 2, 1⟩, 0⟩, ⟨⟨2024, 2, 29⟩, 86399999999⟩) :=
  (c4_period_calculator ⟨⟨2024, 2, 10⟩, 3600000000⟩ (by decide)).2.1

/-- C5: for every supported granularity the computed period contains its
valid anchor timestamp (start ≤ t ≤ end), and the periods of two
timestamps never overlap when distinct: whenever one period starts
strictly before another, it also ends strictly before the other starts
(so in particular adjacent periods are disjoint). -/
theorem c5_period_containment_and_disjointness (g : PeriodType) (t1 t2 : DateTime)
    (h1 : t1.Valid) (h2 : t2.Valid) :
    (DateTime.le (_get_period_from t1 g).1 t1 ∧
      DateTime.le t1 (_get_period_from t1 g).2) ∧
    (DateTime.lt (_get_period_from t1 g).1 (_get_period_from t2 g).1 →
      DateTime.lt (_get_period_from t1 g).2 (_get_period_from t2 g).1) := by
  obtain ⟨⟨y1, m1, d1⟩, u1⟩ := t1
  obtain ⟨⟨y2, m2, d2⟩, u2⟩ := t2
  have h1' : (1 ≤ m1 ∧ m1 ≤ 12 ∧ 1 ≤ d1 ∧ d1 ≤ daysInMonth y1 m1) ∧
      u1 ≤ 86399999999 := h1
  have h2' : (1 ≤ m2 ∧ m2 ≤ 12 ∧ 1 ≤ d2 ∧ d2 ≤ daysInMonth y2 m2) ∧
      u2 ≤ 86399999999 := h2
  obtain ⟨⟨hm1a, hm1b, hd1a, hd1b⟩, hu1⟩ := h1'
  obtain ⟨⟨hm2a, hm2b, hd2a, hd2b⟩, hu2⟩ := h2'
  cases g
  case day =>
    simp only [_get_period_from, _day_period_of, datetimeMinMicro, datetimeMaxMicro,
      DateTime.le, DateTime.lt, Date.lt, DateTime.mk.injEq, Date.mk.injEq,
      true_and, and_true]
    omega
  case month =>
    simp only [_get_period_from, _month_period_of, relativedeltaDay31,
      datetimeMinMicro, datetimeMaxMicro]
    rw [min_eq_right (daysInMonth_le_31 y1 m1)]
    simp only [DateTime.le, DateTime.lt, Date.lt, DateTime.mk.injEq, Date.mk.injEq,
      true_and, and_true]
    omega
  case year =>
    simp only [_get_period_from, _year_period_of, relativedeltaDay31,
      datetimeMinMicro, datetimeMaxMicro]
    have h12 : daysInMonth y1 12 = 31 := rfl
    rw [h12, min_self]
    have hb1 := daysInMonth_le_31 y1 m1
    simp only [DateTime.le, DateTime.lt, Date.lt, DateTime.mk.injEq, Date.mk.injEq,
      true_and, and_true]
    omega

theorem c5_period_containment_and_disjointness_witness :
    (DateTime.le (_get_period_from ⟨⟨2024, 2, 29⟩, 5⟩ .month).1 ⟨⟨2024, 2, 29⟩, 5⟩ ∧
      DateTime.le ⟨⟨2024, 2, 29⟩, 5⟩ (_get_period_from ⟨⟨2024, 2, 29⟩, 5⟩ .month).2) ∧
    DateTime.lt (_get_period_from ⟨⟨2024, 2, 29⟩, 5⟩ .month).2
      (_get_period_from ⟨⟨2024, 3, 1⟩, 0⟩ .month).1 := by
  have h := c5_period_containment_and_disjointness .month
    ⟨⟨2024, 2, 29⟩, 5⟩ ⟨⟨2024, 3, 1⟩, 0⟩ (by decide) (by decide)
  exact ⟨h.1, h.2 (by decide)⟩

theorem foldl_append_singleton {α β : Type} (f : α → β) :
    ∀ (l : List α) (acc : List β),
      l.foldl (fun r a => r ++ [f a]) acc = acc ++ l.map f
  | [], acc => by simp
  | a :: l, acc => by
    simp only [List.foldl_cons, List.map_cons]
    rw [foldl_append_singleton f l (acc ++ [f a])]
    simp

/-- C9: the event transformer is a pure total mapping — it turns every
record of the filtered dataframe into exactly one payload whose fields are
the spec's: `id`, `hotel_id`, `room_id` = `room_reservation_id`,
`rpg_status` = `status`, the timestamp as fixed-precision UTC ISO-8601
with microseconds and a literal Z suffix, and `night_of_stay` as
YYYY-MM-DD. -/
theorem c9_event_transformer_is_spec_map (events : List EventRecord) :
    _events_dataframe_to_payload_data events = events.map toPayloadSpec :=
  (foldl_append_singleton toPayloadSpec events []).trans (List.nil_append _)

theorem reservationLastSync_append_success (g : PeriodType)
    (store : List ReservationLog) (row : ReservationLog)
    (hg : row.period_type = g) (hsucc : row.is_success = true)
    (hbig : ∀ m, reservationLastSync g store = some m →
      DateTime.lt m row.last_sync_at) :
    reservationLastSync g (store ++ [row]) = some row.last_sync_at := by
  unfold reservationLastSync at *
  rw [List.filter_append, List.map_append]
  have hrow : List.filter (fun r => decide (r.period_type = g) && r.is_success)
      [row] = [row] := by
    simp [List.filter_cons, hg, hsucc]
  rw [hrow]
  simp only [List.map_cons, List.map_nil]
  exact maxBy?_append_big DateTime.le DateTime.dt_le_trans DateTime.dt_le_total _ _
    (fun m hm => DateTime.dt_not_le_of_lt (hbig m hm))

/-- C6: the reservation unit resolver returns the fixed epoch anchor
2022-01-29T00:00:00 when no successful watermark exists for the
granularity, and otherwise the most recent successful watermark's
`last_sync_at` truncated to its date plus exactly one day; hence after
every successful `_synchronize` invocation the anchor has advanced by
exactly one calendar day, independent of granularity. -/
theorem c6_reservation_unit_resolver (g : PeriodType) (store : List ReservationLog) :
    (reservationLastSync g store = none →
      _get_timestamp_to_sync g store = ⟨⟨2022, 1, 29⟩, 0⟩) ∧
    (∀ m, reservationLastSync g store = some m →
      _get_timestamp_to_sync g store = ⟨m.date.next, 0⟩) ∧
    (∀ (events : List ProviderEvent) (upsert : ReservationCounter → Bool)
        (s : List ReservationLog) (sent : List ReservationCounter),
      _synchronize g store events upsert = .ok s sent →
      _get_timestamp_to_sync g s =
        ⟨(_get_timestamp_to_sync g store).date.next, 0⟩) := by
  refine ⟨?_, ?_, ?_⟩
  · intro h
    simp only [_get_timestamp_to_sync, h]
  · intro m h
    simp only [_get_timestamp_to_sync, h, datetimeMinMicro]
  · intro events upsert s sent h
    simp only [_synchronize] at h
    split at h
    · injection h with h1 h2
      subst h1
      generalize hA : _get_timestamp_to_sync g store = A
      have hbig : ∀ m, reservationLastSync g store = some m →
          DateTime.lt m A := by
        intro m hm
        rw [← hA]
        simp only [_get_timestamp_to_sync, hm, datetimeMinMicro]
        exact Or.inl (Date.lt_next m.date)
      have hlast : reservationLastSync g
          (store ++ [ReservationLog.mk A g (_get_period_from A g).1
            (_get_period_from A g).2 true]) = some A :=
        reservationLastSync_append_success g store
          (ReservationLog.mk A g (_get_period_from A g).1
            (_get_period_from A g).2 true) rfl rfl hbig
      simp only [_get_timestamp_to_sync, hlast, datetimeMinMicro]
    · exact ReservationSyncOutcome.noConfusion h

theorem c6_reservation_unit_resolver_witness :
    _get_timestamp_to_sync .day [] = ⟨⟨2022, 1, 29⟩, 0⟩ ∧
    _get_timestamp_to_sync .day
      [⟨⟨⟨2024, 6, 14⟩, 36959000000⟩, .day, ⟨⟨2024, 6, 14⟩, 0⟩,
        ⟨⟨2024, 6, 14⟩, 86399999999⟩, true⟩] = ⟨⟨2024, 6, 15⟩, 0⟩ ∧
    _get_timestamp_to_sync .month
      [⟨⟨⟨2022, 1, 29⟩, 0⟩, .month, ⟨⟨2022, 1, 1⟩, 0⟩,
        ⟨⟨2022, 1, 31⟩, 86399999999⟩, true⟩] = ⟨⟨2022, 1, 30⟩, 0⟩ := by
  refine ⟨(c6_reservation_unit_resolver .day []).1 rfl, ?_, ?_⟩
  · exact (c6_reservation_unit_resolver .day _).2.1 ⟨⟨2024, 6, 14⟩, 36959000000⟩ rfl
  · exact (c6_reservation_unit_resolver .month []).2.2 [] (fun _ => true) _ [] (by decide)

theorem eventLastSync_append_success (store : List EventLog) (d : Date)
    (h : ∀ m, eventLastSync store = some m → Date.lt m d) :
    eventLastSync (store ++ [⟨d, true⟩]) = some d := by
  unfold eventLastSync at *
  rw [List.filter_append]
  have hrow : List.filter (fun row => row.is_success) [(⟨d, true⟩ : EventLog)] =
      [⟨d, true⟩] := rfl
  rw [hrow, List.map_append]
  simp only [List.map_cons, List.map_nil]
  exact maxBy?_append_big Date.le Date.le_trans Date.le_total _ _
    (fun m hm => Date.not_le_of_lt (h m hm))

theorem syncDates_trace (ds : List Date) (hs : List.Pairwise Date.lt ds) :
    ∀ (ys xs : List Date) (store : List EventLog),
      ds = xs ++ ys →
      eventLastSync store = xs.getLast? →
      syncDates ds ys.length store = ys := by
  intro ys
  induction ys with
  | nil =>
    intro xs store hds hlast
    rfl
  | cons y ys ih =>
    intro xs store hds hlast
    subst hds
    have hcross : ∀ m, eventLastSync store = some m → Date.lt m y := by
      intro m hm
      cases xs with
      | nil => simp at hlast; rw [hlast] at hm; exact Option.noConfusion hm
      | cons x0 xs' =>
        have hxne : (x0 :: xs') ≠ [] := List.cons_ne_nil x0 xs'
        rw [hlast, List.getLast?_eq_getLast _ hxne] at hm
        injection hm with hm
        subst hm
        have hsplit := (List.pairwise_append.mp hs).2.2
        exact hsplit _ (List.getLast_mem hxne) y (List.mem_cons_self y ys)
    have hres : _get_next_date_to_sync (xs ++ y :: ys) store = .ok (some y) := by
      cases xs with
      | nil =>
        have h0 : eventLastSync store = none := by simpa using hlast
        rw [getNext_of_no_watermark h0 (by simp)]
        rfl
      | cons x0 xs' =>
        have hxne : (x0 :: xs') ≠ [] := List.cons_ne_nil x0 xs'
        have hlen : xs'.length + 1 < ((x0 :: xs') ++ y :: ys).length := by
          simp [List.length_append]
        have hget : ((x0 :: xs') ++ y :: ys).get ⟨xs'.length, by omega⟩ =
            (x0 :: xs').getLast hxne := by
          rw [List.getLast_eq_getElem, List.get_eq_getElem]
          exact List.getElem_append_left (by simp)
        have hget2 : ((x0 :: xs') ++ y :: ys).get ⟨xs'.length + 1, hlen⟩ = y := by
          rw [List.get_eq_getElem]
          rw [List.getElem_append_right (by simp)]
          simp
        have hm : eventLastSync store =
            some (((x0 :: xs') ++ y :: ys).get ⟨xs'.length, by omega⟩) := by
          rw [hlast, List.getLast?_eq_getLast _ hxne, hget]
        rw [getNext_of_mid hs xs'.length hlen hm, hget2]
    have hnext : eventLastSync (store ++ [⟨y, true⟩]) = some y :=
      eventLastSync_append_success store y hcross
    show syncDates (xs ++ y :: ys) (ys.length + 1) store = y :: ys
    simp only [syncDates, hres]
    have := ih (xs ++ [y]) (store ++ [⟨y, true⟩])
      (by rw [List.append_assoc]; rfl)
      (by rw [hnext, List.getLast?_concat])
    rw [this]

/-- C3: starting from an empty watermark store, repeatedly calling the
event unit resolver and appending a successful watermark for each returned
date yields exactly the sorted distinct date list — a strictly increasing
sequence enumerating every distinct source date exactly once — and once
the last date carries a successful watermark, every further
`synchronize_events` invocation is a no-op: no upserts, no new watermark
row. -/
theorem c3_monotone_enumeration_then_noop (ds : List Date) (hne : ds ≠ [])
    (hs : List.Pairwise Date.lt ds) :
    syncDates ds ds.length [] = ds ∧
    (∀ (df_events : List EventRecord) (store : List EventLog)
        (upsert : EventPayload → Bool),
      firstSeen (df_events.map (fun r => r.event_date)) = ds →
      eventLastSync store = some (ds.getLast hne) →
      synchronize_events df_events store upsert = .noWork store) := by
  constructor
  · exact syncDates_trace ds hs ds [] [] rfl rfl
  · intro df_events store upsert hdf hlast
    simp only [synchronize_events]
    rw [hdf, getNext_of_last_elem hs hne hlast]

theorem c3_monotone_enumeration_then_noop_witness :
    syncDates [⟨2024, 6, 11⟩, ⟨2024, 6, 12⟩] 2 [] =
      [⟨2024, 6, 11⟩, ⟨2024, 6, 12⟩] ∧
    synchronize_events
      [⟨1, 1, "a1", ⟨⟨2024, 6, 11⟩, 50400000000⟩, ⟨2024, 6, 12⟩, 1⟩,
       ⟨2, 1, "a2", ⟨⟨2024, 6, 12⟩, 50400000000⟩, ⟨2024, 6, 13⟩, 1⟩]
      [⟨⟨2024, 6, 11⟩, true⟩, ⟨⟨2024, 6, 12⟩, true⟩] (fun _ => true) =
      .noWork [⟨⟨2024, 6, 11⟩, true⟩, ⟨⟨2024, 6, 12⟩, true⟩] := by
  have h := c3_monotone_enumeration_then_noop [⟨2024, 6, 11⟩, ⟨2024, 6, 12⟩]
    (by decide) (by decide)
  exact ⟨h.1, h.2
    [⟨1, 1, "a1", ⟨⟨2024, 6, 11⟩, 50400000000⟩, ⟨2024, 6, 12⟩, 1⟩,
     ⟨2, 1, "a2", ⟨⟨2024, 6, 12⟩, 50400000000⟩, ⟨2024, 6, 13⟩, 1⟩]
    [⟨⟨2024, 6, 11⟩, true⟩, ⟨⟨2024, 6, 12⟩, true⟩] (fun _ => true)
    (by decide) (by decide)⟩

theorem insertEvent_keys (m : List (Int × List ProviderEvent)) (e : ProviderEvent) :
    (insertEvent m e).map Prod.fst =
      if e.hotel_id ∈ m.map Prod.fst then m.map Prod.fst
      else m.map Prod.fst ++ [e.hotel_id] := by
  unfold insertEvent
  by_cases hmem : e.hotel_id ∈ m.map Prod.fst
  · have hany : (m.any fun p => decide (p.1 = e.hotel_id)) = true := by
      rw [List.any_eq_true]
      obtain ⟨p, hp, hfst⟩ := List.mem_map.mp hmem
      exact ⟨p, hp, by simp [hfst]⟩
    rw [if_pos hany, if_pos hmem, List.map_map]
    apply List.map_congr_left
    intro p hp
    simp only [Function.comp_apply]
    split
    · rfl
    · rfl
  · have hany : (m.any fun p => decide (p.1 = e.hotel_id)) = false := by
      rw [List.any_eq_false]
      intro p hp
      simp only [decide_eq_true_eq]
      intro hc
      exact hmem (hc ▸ List.mem_map_of_mem Prod.fst hp)
    rw [if_neg (by simp [hany]), if_neg hmem, List.map_append]
    rfl

theorem foldl_insertEvent_keys :
    ∀ (es : List ProviderEvent) (m : List (Int × List ProviderEvent)),
      (es.foldl insertEvent m).map Prod.fst =
        es.foldl (fun acc e => if e.hotel_id ∈ acc then acc else acc ++ [e.hotel_id])
          (m.map Prod.fst)
  | [], m => rfl
  | e :: es, m => by
    simp only [List.foldl_cons]
    rw [foldl_insertEvent_keys es (insertEvent m e), insertEvent_keys]

theorem keys_eq_firstSeen (es : List ProviderEvent) :
    (es.foldl insertEvent []).map Prod.fst =
      firstSeen (es.map (fun e => e.hotel_id)) := by
  rw [foldl_insertEvent_keys es []]
  unfold firstSeen
  rw [List.foldl_map]
  rfl

theorem foldl_distinct_nodup {α : Type} [DecidableEq α] :
    ∀ (l : List α) (acc : List α), acc.Nodup →
      (l.foldl (fun acc a => if a ∈ acc then acc else acc ++ [a]) acc).Nodup
  | [], _, h => h
  | a :: l, acc, h => by
    simp only [List.foldl_cons]
    apply foldl_distinct_nodup l
    by_cases ha : a ∈ acc
    · rw [if_pos ha]
      exact h
    · rw [if_neg ha]
      rw [List.nodup_append]
      refine ⟨h, List.nodup_singleton a, ?_⟩
      intro x hx hxa
      rw [List.mem_singleton] at hxa
      exact ha (hxa ▸ hx)

theorem firstSeen_nodup {α : Type} [DecidableEq α] (l : List α) :
    (firstSeen l).Nodup :=
  foldl_distinct_nodup l [] List.nodup_nil

/-- First matching value of the grouping dictionary: what reading
`events_map[hotel_id]` yields ( `[]` when the key is absent). -/
def groupVal (events_map : List (Int × List ProviderEvent)) (k : Int) :
    List ProviderEvent :=
  ((events_map.find? (fun p => decide (p.1 = k))).map Prod.snd).getD []

theorem find?_none_of_not_mem_keys (m : List (Int × List ProviderEvent)) (k : Int)
    (h : k ∉ m.map Prod.fst) :
    m.find? (fun p => decide (p.1 = k)) = none := by
  rw [List.find?_eq_none]
  intro p hp
  simp only [decide_eq_true_eq]
  intro hc
  exact h (hc ▸ List.mem_map_of_mem Prod.fst hp)

theorem groupVal_map_update_miss (e : ProviderEvent) (k : Int)
    (hk : ¬ e.hotel_id = k) :
    ∀ (m : List (Int × List ProviderEvent)),
      groupVal (m.map (fun p =>
        if p.1 = e.hotel_id then (p.1, p.2 ++ [e]) else p)) k = groupVal m k
  | [] => rfl
  | q :: m' => by
    simp only [List.map_cons]
    by_cases hq : q.1 = k
    · have hqe : ¬ q.1 = e.hotel_id := by
        rw [hq]
        intro hc
        exact hk hc.symm
      have hite : (if q.1 = e.hotel_id then (q.1, q.2 ++ [e]) else q) = q :=
        if_neg hqe
      rw [hite]
      unfold groupVal
      rw [List.find?_cons, List.find?_cons]
      have hdec : (decide (q.1 = k)) = true := by simp [hq]
      rw [hdec]
    · have hfst : (if q.1 = e.hotel_id then (q.1, q.2 ++ [e]) else q).1 = q.1 := by
        split
        · rfl
        · rfl
      unfold groupVal
      rw [List.find?_cons, List.find?_cons, hfst, decide_eq_false hq]
      exact groupVal_map_update_miss e k hk m'

theorem groupVal_map_update_hit (e : ProviderEvent) :
    ∀ (m : List (Int × List ProviderEvent)),
      e.hotel_id ∈ m.map Prod.fst →
      groupVal (m.map (fun p =>
        if p.1 = e.hotel_id then (p.1, p.2 ++ [e]) else p)) e.hotel_id =
        groupVal m e.hotel_id ++ [e]
  | [], h => absurd h (List.not_mem_nil _)
  | q :: m', h => by
    simp only [List.map_cons]
    by_cases hq : q.1 = e.hotel_id
    · simp [groupVal, List.find?_cons, hq]
    · have hmem' : e.hotel_id ∈ m'.map Prod.fst := by
        rw [List.map_cons, List.mem_cons] at h
        rcases h with hc | h'
        · exact absurd hc.symm hq
        · exact h'
      have hfst : (if q.1 = e.hotel_id then (q.1, q.2 ++ [e]) else q).1 = q.1 := by
        split
        · rfl
        · rfl
      simp only [groupVal, List.find?_cons, hfst]
      simp only [decide_eq_false hq]
      exact groupVal_map_update_hit e m' hmem'

theorem groupVal_append_new (m : List (Int × List ProviderEvent)) (e : ProviderEvent)
    (k : Int) (hmem : ¬ e.hotel_id ∈ m.map Prod.fst) :
    groupVal (m ++ [(e.hotel_id, [e])]) k =
      groupVal m k ++ (if e.hotel_id = k then [e] else []) := by
  unfold groupVal
  rw [List.find?_append]
  by_cases hk : e.hotel_id = k
  · subst hk
    rw [find?_none_of_not_mem_keys m _ hmem]
    simp [List.find?_cons]
  · have hsingle : List.find? (fun p => decide (p.1 = k)) [(e.hotel_id, [e])] = none := by
      simp [List.find?_cons, hk]
    rw [hsingle]
    simp [hk]

theorem groupVal_insertEvent (m : List (Int × List ProviderEvent))
    (e : ProviderEvent) (k : Int) :
    groupVal (insertEvent m e) k =
      groupVal m k ++ (if e.hotel_id = k then [e] else []) := by
  unfold insertEvent
  by_cases hmem : e.hotel_id ∈ m.map Prod.fst
  · have hany : (m.any fun p => decide (p.1 = e.hotel_id)) = true := by
      rw [List.any_eq_true]
      obtain ⟨p, hp, hfst⟩ := List.mem_map.mp hmem
      exact ⟨p, hp, by simp [hfst]⟩
    rw [if_pos hany]
    by_cases hk : e.hotel_id = k
    · subst hk
      rw [groupVal_map_update_hit e m hmem]
      simp
    · rw [groupVal_map_update_miss e k hk m]
      simp [hk]
  · have hany : (m.any fun p => decide (p.1 = e.hotel_id)) = false := by
      rw [List.any_eq_false]
      intro p hp
      simp only [decide_eq_true_eq]
      intro hc
      exact hmem (hc ▸ List.mem_map_of_mem Prod.fst hp)
    rw [if_neg (by simp [hany])]
    exact groupVal_append_new m e k hmem

theorem groupVal_foldl :
    ∀ (es : List ProviderEvent) (m : List (Int × List ProviderEvent)) (k : Int),
      groupVal (es.foldl insertEvent m) k =
        groupVal m k ++ es.filter (fun x => decide (x.hotel_id = k))
  | [], m, k => by simp
  | e :: es, m, k => by
    simp only [List.foldl_cons, List.filter_cons]
    rw [groupVal_foldl es (insertEvent m e) k, groupVal_insertEvent]
    by_cases hk : e.hotel_id = k
    · simp [hk, List.append_assoc]
    · simp [hk]

theorem find?_eq_self_of_nodup_keys :
    ∀ (m : List (Int × List ProviderEvent)),
      (m.map Prod.fst).Nodup → ∀ p ∈ m,
      m.find? (fun q => decide (q.1 = p.1)) = some p
  | [], _, p, hp => absurd hp (List.not_mem_nil p)
  | q :: m', hnd, p, hp => by
    rcases List.mem_cons.mp hp with hqp | hp'
    · subst hqp
      simp [List.find?_cons]
    · rw [List.map_cons, List.nodup_cons] at hnd
      have hq : ¬ q.1 = p.1 := by
        intro hc
        exact hnd.1 (hc ▸ List.mem_map_of_mem Prod.fst hp')
      rw [List.find?_cons]
      simp only [decide_eq_false hq]
      exact find?_eq_self_of_nodup_keys m' hnd.2 p hp'

/-- C8: the reservation aggregator emits exactly one aggregate per distinct
`hotel_id`, in first-seen order of hotel ids, each with `total` equal to
the number of that hotel's events in the provider's response, and each
stamped with the same `period_type`, `period_start` and `period_end`
computed from the anchor; an empty response yields an empty aggregate list
while the orchestrator still appends a success watermark row. -/
theorem c8_reservation_aggregator (timestamp : DateTime) (period_type : PeriodType)
    (events : List ProviderEvent) :
    ((_count_events_on timestamp period_type events).map (fun c => c.hotel_id) =
      firstSeen (events.map (fun e => e.hotel_id))) ∧
    (∀ c ∈ _count_events_on timestamp period_type events,
      c.total = (events.filter (fun e => decide (e.hotel_id = c.hotel_id))).length ∧
      c.period_type = period_type ∧
      c.period_start = (_get_period_from timestamp period_type).1.strftimeIsoZ ∧
      c.period_end = (_get_period_from timestamp period_type).2.strftimeIsoZ) ∧
    (events = [] → _count_events_on timestamp period_type events = []) ∧
    (∀ (store : List ReservationLog) (upsert : ReservationCounter → Bool),
      _synchronize period_type store [] upsert =
        .ok (store ++ [ReservationLog.mk (_get_timestamp_to_sync period_type store)
          period_type
          (_get_period_from (_get_timestamp_to_sync period_type store) period_type).1
          (_get_period_from (_get_timestamp_to_sync period_type store) period_type).2
          true]) []) := by
  refine ⟨?_, ?_, ?_, ?_⟩
  · simp only [_count_events_on, List.map_map]
    exact keys_eq_firstSeen events
  · intro c hc
    simp only [_count_events_on, List.mem_map] at hc
    obtain ⟨p, hp, rfl⟩ := hc
    refine ⟨?_, rfl, rfl, rfl⟩
    have hnd : ((events.foldl insertEvent []).map Prod.fst).Nodup := by
      rw [keys_eq_firstSeen]
      exact firstSeen_nodup _
    have hfind := find?_eq_self_of_nodup_keys _ hnd p hp
    have hval : groupVal (events.foldl insertEvent []) p.1 = p.2 := by
      unfold groupVal
      rw [hfind]
      rfl
    have hp2 : p.2 = events.filter (fun x => decide (x.hotel_id = p.1)) := by
      rw [← hval, groupVal_foldl events [] p.1]
      rfl
    dsimp only
    rw [hp2]
  · intro h
    subst h
    rfl
  · intro store upsert
    rfl

theorem c8_reservation_aggregator_witness :
    ((_count_events_on ⟨⟨2022, 1, 29⟩, 0⟩ .day [⟨1⟩, ⟨2⟩, ⟨1⟩]).map
        (fun c => c.hotel_id) = [1, 2]) ∧
    (∀ c ∈ _count_events_on ⟨⟨2022, 1, 29⟩, 0⟩ .day [⟨1⟩, ⟨2⟩, ⟨1⟩],
      c.total = (([⟨1⟩, ⟨2⟩, ⟨1⟩] : List ProviderEvent).filter
        (fun e => decide (e.hotel_id = c.hotel_id))).length) ∧
    _synchronize .day [] [] (fun _ => true) =
      .ok [⟨⟨⟨2022, 1, 29⟩, 0⟩, .day, ⟨⟨2022, 1, 29⟩, 0⟩,
        ⟨⟨2022, 1, 29⟩, 86399999999⟩, true⟩] [] := by
  have h := c8_reservation_aggregator ⟨⟨2022, 1, 29⟩, 0⟩ .day [⟨1⟩, ⟨2⟩, ⟨1⟩]
  refine ⟨h.1, fun c hc => (h.2.1 c hc).1, ?_⟩
  exact (c8_reservation_aggregator ⟨⟨2022, 1, 29⟩, 0⟩ .day []).2.2.2 [] (fun _ => true)
